import Mathlib

/-!
Verification of the go-api-scheduler core against its specification.

The definitions below are a shallow embedding of the repository's Go code:
  - `internal/logger/logger.go`   (capped diagnostic log)
  - `internal/scheduler/scheduler.go`  (registry, job lifecycle, HTTP dispatch)

Go maps guarded by a mutex become association lists with unique keys,
goroutine interleavings become explicit operation sequences, wall-clock
instants become integer seconds, `time.Duration` values become integer
nanoseconds wrapped to the signed 64-bit range, and the network is an
explicit environment parameter (`HTTPResult` / `TickEvent`).
-/

/-! ## Logger (`internal/logger/logger.go`) -/

/-- `LogEntry` from logger.go: a formatted wall-clock time plus a message. -/
structure LogEntry where
  time : String
  message : String
deriving DecidableEq, Repr

/-- The body of `AddLog`: append one element, and if the list has grown past
100 elements drop the oldest one (`logs = logs[1:]`).  Polymorphic so the
same capping logic serves both the `LogEntry` log and the message-level
view used by the scheduler model. -/
def addCapped {α : Type} (logs : List α) (e : α) : List α :=
  let logs2 := logs ++ [e]
  if logs2.length > 100 then logs2.drop 1 else logs2

/-- `AddLog` from logger.go.  The formatted current time (`time.Now().Format`)
is an environment input, passed explicitly. -/
def AddLog (logs : List LogEntry) (now : String) (message : String) : List LogEntry :=
  addCapped logs { time := now, message := message }

/-- `GetLogs` from logger.go: returns the current entries in order. -/
def GetLogs (logs : List LogEntry) : List LogEntry :=
  logs

/-! ## Scheduler data model (`internal/scheduler/scheduler.go`) -/

/-- `SchedulerConfig` from scheduler.go.  `RepeatValue` is a Go `int`
(64-bit signed); we carry it as `Int` and wrap products into the 64-bit
range where the code multiplies it. -/
structure SchedulerConfig where
  StartTime : String
  RepeatValue : Int
  RepeatUnit : String
  APIURL : String
  HTTPMethod : String
  Payload : String
deriving DecidableEq, Repr

/-- `Scheduler` from scheduler.go.  The `stopChan` channel is modelled by the
explicit stop events of the run model rather than by a field. -/
structure Scheduler where
  id : String
  running : Bool
  config : SchedulerConfig
deriving DecidableEq, Repr

/-- The process-wide mutable state of the scheduler package: the `schedulers`
map (as an association list with unique keys, matching a Go map) plus the
logger's message list.  Timestamps of log lines are elided at this level:
`logs` records the messages in insertion order, with the same 100-entry cap. -/
structure SysState where
  schedulers : List (String × Scheduler)
  logs : List String
deriving DecidableEq, Repr

/-- Append one message to the state's diagnostic log (a `logger.AddLog` call). -/
def logS (st : SysState) (m : String) : SysState :=
  { st with logs := addCapped st.logs m }

/-- Go map read `schedulers[id]`. -/
def lookupS : List (String × Scheduler) → String → Option Scheduler
  | [], _ => none
  | (k, v) :: rest, id => if k = id then some v else lookupS rest id

/-- Go map write `schedulers[id] = s` (replace if present, append if absent). -/
def updateS : List (String × Scheduler) → String → Scheduler → List (String × Scheduler)
  | [], id, s => [(id, s)]
  | (k, v) :: rest, id, s =>
    if k = id then (id, s) :: rest else (k, v) :: updateS rest id s

/-- Go map delete `delete(schedulers, id)`. -/
def eraseS : List (String × Scheduler) → String → List (String × Scheduler)
  | [], _ => []
  | (k, v) :: rest, id => if k = id then rest else (k, v) :: eraseS rest id

/-- The identifiers present in the registry. -/
def keysOf (m : List (String × Scheduler)) : List String :=
  m.map Prod.fst

/-- The registry represents a Go map: identifiers are pairwise distinct. -/
def keysNodup (m : List (String × Scheduler)) : Prop :=
  (keysOf m).Nodup

/-- Every scheduler held by the registry has its `running` flag set. -/
def allRunning (m : List (String × Scheduler)) : Prop :=
  ∀ p ∈ m, p.2.running = true

instance (m : List (String × Scheduler)) : Decidable (allRunning m) := by
  unfold allRunning; infer_instance

instance (m : List (String × Scheduler)) : Decidable (keysNodup m) := by
  unfold keysNodup; infer_instance

/-! ### Diagnostic messages (verbatim from scheduler.go, with the `[id]`
prefix; the `%v` error details and formatted durations that Go interpolates
at the end of some lines are elided as environment-dependent text). -/

def dupMsg (id : String) : String :=
  "[" ++ id ++ "] 스케줄러가 이미 실행 중입니다. 새로운 요청을 무시합니다."

def stoppedMsg (id : String) : String :=
  "[" ++ id ++ "] 스케줄러가 중지되었습니다."

def notRunningMsg (id : String) : String :=
  "[" ++ id ++ "] 스케줄러가 실행 중이지 않습니다."

def notFoundMsg (id : String) : String :=
  "[" ++ id ++ "] 존재하지 않는 스케줄러 ID입니다."

def startReqMsg (id : String) : String :=
  "[" ++ id ++ "] 스케줄러 시작 요청을 받았습니다."

def configMsg (id : String) (cfg : SchedulerConfig) : String :=
  "[" ++ id ++ "] 설정: 시작 시각 " ++ cfg.StartTime ++ ", 반복 " ++
    toString cfg.RepeatValue ++ cfg.RepeatUnit ++ ", URL " ++ cfg.APIURL

def parseErrMsg (id : String) : String :=
  "[" ++ id ++ "] 시작 시간 파싱 오류: "

def waitingMsg (id : String) : String :=
  "[" ++ id ++ "] 스케줄 시작까지 대기 중입니다... 남은 시간: "

def stoppedBeforeStartMsg (id : String) : String :=
  "[" ++ id ++ "] 스케줄러가 시작 전에 중지되었습니다."

def invalidUnitMsg (id : String) : String :=
  "[" ++ id ++ "] 유효하지 않은 반복 단위입니다. 스케줄러를 중지합니다."

def runningMsg (id : String) : String :=
  "[" ++ id ++ "] 스케줄러가 실행 중입니다."

def callStartMsg (id : String) (cfg : SchedulerConfig) : String :=
  "[" ++ id ++ "] API 호출 시작: URL " ++ cfg.APIURL ++ ", 메서드 " ++ cfg.HTTPMethod

def reqErrMsg (id : String) : String :=
  "[" ++ id ++ "] 요청 생성 오류: "

def urlParseErrMsg (id : String) : String :=
  "[" ++ id ++ "] URL 파싱 오류: "

def callErrMsg (id : String) : String :=
  "[" ++ id ++ "] API 호출 오류: "

def readErrMsg (id : String) : String :=
  "[" ++ id ++ "] 응답 본문 읽기 오류: "

def statusMsg (id : String) (code : Nat) : String :=
  "[" ++ id ++ "] API 호출 성공 - HTTP 상태 코드: " ++ toString code

def bodyMsg (id : String) (body : String) : String :=
  "[" ++ id ++ "] 응답 본문: " ++ body

def autoStopMsg (id : String) : String :=
  "[" ++ id ++ "] 응답 성공 (200 OK) - 스케줄러가 자동으로 중지됩니다."

/-! ### Registry operations -/

/-- `StartScheduler` from scheduler.go: under the lock, refuse a duplicate
id with a diagnostic, otherwise insert a fresh running scheduler.  The
`go s.run()` launch is modelled separately by `run`. -/
def StartScheduler (st : SysState) (id : String) (config : SchedulerConfig) : SysState :=
  match lookupS st.schedulers id with
  | some _ => logS st (dupMsg id)
  | none =>
    { st with
      schedulers := updateS st.schedulers id { id := id, running := true, config := config } }

/-- `StopScheduler` from scheduler.go: under the lock, if the id is held and
running, close its channel, clear the flag, delete it and log "stopped";
if held but not running, log "not running"; if absent, log "not found". -/
def StopScheduler (st : SysState) (id : String) : SysState :=
  match lookupS st.schedulers id with
  | some s =>
    if s.running then
      { schedulers := eraseS st.schedulers id,
        logs := addCapped st.logs (stoppedMsg id) }
    else
      logS st (notRunningMsg id)
  | none => logS st (notFoundMsg id)

/-! ### Reachable states

The three code paths that touch the registry — an external `StartScheduler`,
an external `StopScheduler`, and a job goroutine's self-removal (which is a
`StopScheduler` call) — all run under the same mutex, so every execution of
the process is some sequence of these atomic steps plus `logger.AddLog`
calls.  `Reachable` closes the initial empty state (`Init`) under them. -/

inductive Reachable : SysState → Prop
  | init : Reachable { schedulers := [], logs := [] }
  | start (id : String) (cfg : SchedulerConfig) {st : SysState} :
      Reachable st → Reachable (StartScheduler st id cfg)
  | stop (id : String) {st : SysState} :
      Reachable st → Reachable (StopScheduler st id)
  | log (m : String) {st : SysState} :
      Reachable st → Reachable (logS st m)


/-! ## Start-time parsing

`run` builds the string `time.Now().Format("2006-01-02") ++ " " ++ cfg.StartTime`
and parses it with layout `"2006-01-02 15:04:05"`.  The generated date part
always matches its layout, so success depends only on the clock part.  The
embedding follows Go's `time` parser for the `15:04:05` layout: the hour
field accepts one or two digits, minutes and seconds require exactly two,
literal colons must match, no text may remain, and the fields must satisfy
hour < 24, minute < 60, second < 60. -/

def isDigitCh (c : Char) : Bool :=
  '0' ≤ c && c ≤ '9'

def digitVal (c : Char) : Nat :=
  c.toNat - '0'.toNat

/-- Go `time.getnum`: read one numeric field.  With `fixed = true` exactly
two digits are required; otherwise one digit is accepted when a second
digit does not follow. -/
def getnum (fixed : Bool) : List Char → Option (Nat × List Char)
  | [] => none
  | c1 :: rest =>
    if isDigitCh c1 then
      match rest with
      | c2 :: rest2 =>
        if isDigitCh c2 then some (10 * digitVal c1 + digitVal c2, rest2)
        else if fixed then none else some (digitVal c1, rest)
      | [] => if fixed then none else some (digitVal c1, [])
    else none

/-- Parse `cfg.StartTime` as the `15:04:05` clock part of the layout,
returning (hour, minute, second) on success. -/
def parseClock (s : String) : Option (Nat × Nat × Nat) :=
  match getnum false s.data with
  | some (h, ':' :: r2) =>
    match getnum true r2 with
    | some (mi, ':' :: r4) =>
      match getnum true r4 with
      | some (se, []) =>
        if h < 24 ∧ mi < 60 ∧ se < 60 then some (h, mi, se) else none
      | _ => none
    | _ => none
  | _ => none

/-- Seconds after local midnight of a parsed clock value. -/
def secOfDay (c : Nat × Nat × Nat) : Nat :=
  c.1 * 3600 + c.2.1 * 60 + c.2.2

/-- The rollover in `run` (instants in integer seconds):

    if startTime.Before(now) { startTime = startTime.Add(24 * time.Hour) }
-/
def computeTarget (startT now : Int) : Int :=
  if startT < now then startT + 86400 else startT

/-! ## Repeat interval and the ticker -/

/-- Wrap an integer into the signed 64-bit range, as Go's `int64`
(`time.Duration`) arithmetic does. -/
def int64wrap (n : Int) : Int :=
  (n + 2 ^ 63) % 2 ^ 64 - 2 ^ 63

/-- The `switch s.config.RepeatUnit` in `run`, producing the tick interval in
nanoseconds (`time.Duration`); `none` is the `default` (invalid unit) branch.
The multiplications `time.Duration(RepeatValue) * time.Hour` etc. are 64-bit
and wrap on overflow. -/
def repeatIntervalNs (cfg : SchedulerConfig) : Option Int :=
  match cfg.RepeatUnit with
  | "h" => some (int64wrap (cfg.RepeatValue * 3600000000000))
  | "m" => some (int64wrap (cfg.RepeatValue * 60000000000))
  | "s" => some (int64wrap (cfg.RepeatValue * 1000000000))
  | _ => none

/-- `time.NewTicker` panics exactly when its duration is not positive
("non-positive interval for NewTicker"). -/
def newTickerPanics (d : Int) : Bool :=
  d ≤ 0

/-! ## Payload decoding (`json.Unmarshal` into `map[string]string`)

`callAPI` ignores the error returned by `json.Unmarshal`, so what matters
is the map the call leaves behind together with whether the error was
non-nil.  Go's `Unmarshal` first syntax-checks the whole input
(`checkValid`); on a syntax error nothing is decoded and the map keeps its
zero value `nil`.  On syntactically valid JSON it best-effort-decodes: a
top-level non-object (except `null`) is a type error with the map left
`nil`; `null` is a no-op without error; an object is walked member by
member, string values are stored, any non-string value is a saved
`UnmarshalTypeError` with the member stored as the empty string, and a
duplicate key keeps the later value.  String literals follow Go's
unquoting: the simple escapes, `\uXXXX` with surrogate-pair combination,
unpaired surrogates replaced by U+FFFD, raw control characters rejected. -/

def skipWs (s : List Char) : List Char :=
  s.dropWhile (fun c => c = ' ' || c = '\t' || c = '\n' || c = '\r')

def escChar (c : Char) : Option Char :=
  if c = '"' then some '"'
  else if c = '\\' then some '\\'
  else if c = '/' then some '/'
  else if c = 'n' then some '\n'
  else if c = 't' then some '\t'
  else if c = 'r' then some '\r'
  else if c = 'b' then some (Char.ofNat 8)
  else if c = 'f' then some (Char.ofNat 12)
  else none

def hexVal (c : Char) : Option Nat :=
  if '0' ≤ c ∧ c ≤ '9' then some (c.toNat - 48)
  else if 'a' ≤ c ∧ c ≤ 'f' then some (c.toNat - 87)
  else if 'A' ≤ c ∧ c ≤ 'F' then some (c.toNat - 55)
  else none

/-- Read the remainder of a JSON string literal (opening quote consumed),
with Go's unquoting: simple escapes, `\uXXXX` (a high surrogate followed by
a low-surrogate escape combines into one code point; an unpaired surrogate
becomes U+FFFD), and a syntax failure on malformed escapes or raw control
characters. -/
def jsonStringRest : Nat → List Char → List Char → Option (String × List Char)
  | 0, _, _ => none
  | _ + 1, _, [] => none
  | _ + 1, acc, '"' :: rest => some (String.mk acc.reverse, rest)
  | fuel + 1, acc, '\\' :: 'u' :: c1 :: c2 :: c3 :: c4 :: rest =>
    match hexVal c1, hexVal c2, hexVal c3, hexVal c4 with
    | some h1, some h2, some h3, some h4 =>
      let n := ((h1 * 16 + h2) * 16 + h3) * 16 + h4
      if 55296 ≤ n ∧ n < 56320 then
        match rest with
        | '\\' :: 'u' :: d1 :: d2 :: d3 :: d4 :: rest2 =>
          match hexVal d1, hexVal d2, hexVal d3, hexVal d4 with
          | some g1, some g2, some g3, some g4 =>
            let m := ((g1 * 16 + g2) * 16 + g3) * 16 + g4
            if 56320 ≤ m ∧ m < 57344 then
              jsonStringRest fuel
                (Char.ofNat (65536 + (n - 55296) * 1024 + (m - 56320)) :: acc) rest2
            else jsonStringRest fuel (Char.ofNat 65533 :: acc) rest
          | _, _, _, _ => jsonStringRest fuel (Char.ofNat 65533 :: acc) rest
        | _ => jsonStringRest fuel (Char.ofNat 65533 :: acc) rest
      else if 56320 ≤ n ∧ n < 57344 then
        jsonStringRest fuel (Char.ofNat 65533 :: acc) rest
      else jsonStringRest fuel (Char.ofNat n :: acc) rest
    | _, _, _, _ => none
  | fuel + 1, acc, '\\' :: c :: rest =>
    match escChar c with
    | some c2 => jsonStringRest fuel (c2 :: acc) rest
    | none => none
  | fuel + 1, acc, c :: rest =>
    if c.toNat < 32 then none else jsonStringRest fuel (c :: acc) rest

def isDigit09 (c : Char) : Bool :=
  '0' ≤ c && c ≤ '9'

/-- One or more digits, returning the remainder. -/
def parseDigits1 : List Char → Option (List Char)
  | c :: rest => if isDigit09 c then some (rest.dropWhile isDigit09) else none
  | [] => none

/-- The optional exponent part of a JSON number. -/
def parseExpPart (s : List Char) : Option (List Char) :=
  match s with
  | c :: rest =>
    if c = 'e' ∨ c = 'E' then
      match rest with
      | d :: rest2 =>
        if d = '+' ∨ d = '-' then parseDigits1 rest2 else parseDigits1 rest
      | [] => none
    else some s
  | [] => some []

/-- The optional fraction part of a JSON number, then the exponent part. -/
def parseFracPart (s : List Char) : Option (List Char) :=
  match s with
  | '.' :: rest =>
    match parseDigits1 rest with
    | some r => parseExpPart r
    | none => none
  | _ => parseExpPart s

/-- A JSON number per Go's scanner: optional minus, `0` or a nonzero-led
digit run, optional fraction, optional exponent. -/
def parseJNum (s : List Char) : Option (List Char) :=
  let s1 := match s with
    | '-' :: r => r
    | _ => s
  match s1 with
  | [] => none
  | c :: rest =>
    if c = '0' then parseFracPart rest
    else if isDigit09 c then parseFracPart (rest.dropWhile isDigit09) else none

/-- The shape of a decoded JSON value, as much of it as decoding into
`map[string]string` observes: member values keep only whether they are
strings (and which string); arrays and nested detail beyond that are
validated and discarded. -/
inductive Jval where
  | jstr (s : String)
  | jnum
  | jbool
  | jnull
  | jarr
  | jobj (members : List (String × Jval))

mutual

/-- Parse one JSON value (fuel bounds the recursion; `parseJSONTop` supplies
enough for any input of its length). -/
def parseJVal : Nat → List Char → Option (Jval × List Char)
  | 0, _ => none
  | fuel + 1, s =>
    match skipWs s with
    | '"' :: rest =>
      match jsonStringRest (rest.length + 1) [] rest with
      | some (str, r) => some (Jval.jstr str, r)
      | none => none
    | '\x7b' :: rest =>
      match skipWs rest with
      | '\x7d' :: r2 => some (Jval.jobj [], r2)
      | _ =>
        match parseJMembers fuel rest [] with
        | some (members, r2) => some (Jval.jobj members, r2)
        | none => none
    | '[' :: rest =>
      match skipWs rest with
      | ']' :: r2 => some (Jval.jarr, r2)
      | _ =>
        match parseJElems fuel rest with
        | some r2 => some (Jval.jarr, r2)
        | none => none
    | 't' :: 'r' :: 'u' :: 'e' :: rest => some (Jval.jbool, rest)
    | 'f' :: 'a' :: 'l' :: 's' :: 'e' :: rest => some (Jval.jbool, rest)
    | 'n' :: 'u' :: 'l' :: 'l' :: rest => some (Jval.jnull, rest)
    | s2 =>
      match parseJNum s2 with
      | some r => some (Jval.jnum, r)
      | none => none

/-- Parse the members of a JSON object after its opening brace (at least
one member; `\x7b\x7d` is handled by the caller). -/
def parseJMembers : Nat → List Char → List (String × Jval) →
    Option (List (String × Jval) × List Char)
  | 0, _, _ => none
  | fuel + 1, s, acc =>
    match skipWs s with
    | '"' :: rest =>
      match jsonStringRest (rest.length + 1) [] rest with
      | none => none
      | some (k, r1) =>
        match skipWs r1 with
        | ':' :: r2 =>
          match parseJVal fuel r2 with
          | none => none
          | some (v, r3) =>
            match skipWs r3 with
            | ',' :: r4 => parseJMembers fuel r4 (acc ++ [(k, v)])
            | '\x7d' :: r4 => some (acc ++ [(k, v)], r4)
            | _ => none
        | _ => none
    | _ => none

/-- Parse the elements of a JSON array after its opening bracket (at least
one element; `[]` is handled by the caller).  The elements are only
validated. -/
def parseJElems : Nat → List Char → Option (List Char)
  | 0, _ => none
  | fuel + 1, s =>
    match parseJVal fuel s with
    | none => none
    | some (_, r) =>
      match skipWs r with
      | ',' :: r2 => parseJElems fuel r2
      | ']' :: r2 => some r2
      | _ => none

end

/-- Go's `checkValid` over the whole blob: one JSON value followed only by
whitespace; `none` is a syntax error. -/
def parseJSONTop (blob : String) : Option Jval :=
  match parseJVal (2 * blob.length + 2) blob.data with
  | some (v, rest) => if skipWs rest = [] then some v else none
  | none => none

/-- Go map insertion for decoded members: a later duplicate key overwrites. -/
def insertKV : List (String × String) → String → String → List (String × String)
  | [], k, v => [(k, v)]
  | (k0, v0) :: rest, k, v =>
    if k0 = k then (k0, v) :: rest else (k0, v0) :: insertKV rest k v

/-- `json.Unmarshal([]byte(blob), &payload)` for
`var payload map[string]string`: the resulting mapping together with
whether the returned error was non-nil.  A syntax error or a top-level
non-object (other than `null`) leaves the map `nil` with an error; `null`
is a no-op without error; an object is decoded best-effort, each
non-string member value stored as `""` and flagged as a type error. -/
def unmarshalPayload (blob : String) : List (String × String) × Bool :=
  match parseJSONTop blob with
  | none => ([], true)
  | some (Jval.jobj members) =>
    (members.foldl
      (fun acc kv =>
        insertKV acc kv.1
          (match kv.2 with
           | Jval.jstr str => str
           | _ => "")) [],
     members.any (fun kv =>
        match kv.2 with
        | Jval.jstr _ => false
        | _ => true))
  | some Jval.jnull => ([], false)
  | some _ => ([], true)

/-- The payload map `callAPI` works with (the error is discarded). -/
def decodePayload (blob : String) : List (String × String) :=
  (unmarshalPayload blob).1

/-- Whether `json.Unmarshal` reported a decode failure for this blob. -/
def decodeFails (blob : String) : Bool :=
  (unmarshalPayload blob).2

/-! ## URL handling and query encoding (`net/url`)

`callAPI` calls `url.Parse` on the configured URL (for GET directly, and
for POST inside `http.NewRequest`), sets `RawQuery` to the encoded payload
and reassembles the URL with `String()`.  The model splits a URL at its
first `?` into a base and a raw query, and rejects URLs containing ASCII
control characters, the failure mode `net/url` documents; rarer parse
failures are not modelled. -/

/-- Split a character list at the first `?`. -/
def splitQ : List Char → List Char × List Char
  | [] => ([], [])
  | c :: rest =>
    if c = '?' then ([], rest)
    else
      let p := splitQ rest
      (c :: p.1, p.2)

/-- A parsed URL, reduced to the components `callAPI` manipulates. -/
structure URL where
  base : String
  rawQuery : String
deriving DecidableEq, Repr

/-- `url.Parse`: fails on ASCII control characters, otherwise splits off the
raw query. -/
def urlParse (s : String) : Option URL :=
  if s.data.any (fun c => c.toNat < 32 || c.toNat = 127) then none
  else some { base := String.mk (splitQ s.data).1, rawQuery := String.mk (splitQ s.data).2 }

/-- `url.URL.String()` for the modelled components: the base, plus `?` and
the raw query when the latter is nonempty. -/
def urlString (u : URL) : String :=
  if u.rawQuery = "" then u.base else u.base ++ "?" ++ u.rawQuery

/-- UTF-8 bytes of one character. -/
def utf8Bytes (c : Char) : List Nat :=
  let n := c.toNat
  if n < 128 then [n]
  else if n < 2048 then [192 + n / 64, 128 + n % 64]
  else if n < 65536 then [224 + n / 4096, 128 + n / 64 % 64, 128 + n % 64]
  else [240 + n / 262144, 128 + n / 4096 % 64, 128 + n / 64 % 64, 128 + n % 64]

def hexDigit (n : Nat) : Char :=
  if n < 10 then Char.ofNat (48 + n) else Char.ofNat (55 + n)

/-- One byte under Go's `url.QueryEscape`: alphanumerics and `-_.~` pass
through, a space becomes `+`, everything else becomes `%XX`. -/
def escByte (b : Nat) : List Char :=
  if (48 ≤ b ∧ b ≤ 57) ∨ (65 ≤ b ∧ b ≤ 90) ∨ (97 ≤ b ∧ b ≤ 122) ∨
      b = 45 ∨ b = 95 ∨ b = 46 ∨ b = 126 then [Char.ofNat b]
  else if b = 32 then ['+']
  else ['%', hexDigit (b / 16), hexDigit (b % 16)]

/-- Go `url.QueryEscape`. -/
def queryEscape (s : String) : String :=
  String.mk ((s.data.flatMap utf8Bytes).flatMap escByte)

/-- Lexicographic comparison of character lists; on code points this agrees
with the byte-wise string order `sort.Strings` uses. -/
def leChars : List Char → List Char → Bool
  | [], _ => true
  | _ :: _, [] => false
  | a :: as, b :: bs => if a < b then true else if b < a then false else leChars as bs

/-- String order for the `sort.Strings` key sort inside `url.Values.Encode`. -/
def leString (a b : String) : Bool :=
  leChars a.data b.data

/-- Insert one pair into a list already ascending by key (helper for the
`sort.Strings` key ordering inside `url.Values.Encode`). -/
def insortKV (kv : String × String) : List (String × String) → List (String × String)
  | [] => [kv]
  | p :: rest => if leString kv.1 p.1 then kv :: p :: rest else p :: insortKV kv rest

/-- Sort the payload pairs by key in ascending order (`url.Values.Encode`
sorts its keys with `sort.Strings`; the decoded payload has distinct keys). -/
def sortByKey (l : List (String × String)) : List (String × String) :=
  l.foldr insortKV []

/-- Join the encoded `key=value` fragments with `&`. -/
def joinAmp : List String → String
  | [] => ""
  | [x] => x
  | x :: xs => x ++ "&" ++ joinAmp xs

/-- Go `url.Values.Encode()` over the payload mapping: keys sorted, each
pair escaped and joined with `&`; the empty mapping encodes to `""`. -/
def encodeValues (kvs : List (String × String)) : String :=
  joinAmp ((sortByKey kvs).map (fun kv => queryEscape kv.1 ++ "=" ++ queryEscape kv.2))

/-! ## Request construction (`callAPI`, lines 160-188) -/

/-- `strings.ToUpper` restricted to ASCII, which is all the method-token
comparison needs (Go applies full Unicode case mapping; for the tokens
compared against "POST" the ASCII mapping coincides). -/
def toUpperAscii (s : String) : String :=
  String.mk (s.data.map (fun c => if 'a' ≤ c ∧ c ≤ 'z' then Char.ofNat (c.toNat - 32) else c))

/-- The outgoing HTTP request `callAPI` builds. -/
structure Request where
  method : String
  url : String
  body : Option String
  contentType : Option String
deriving DecidableEq, Repr

/-- Which error branch request construction took: `url.Parse` failing in the
GET arm, or `http.NewRequest` failing (it parses the URL) in the POST arm. -/
inductive BuildErr
  | urlParse
  | newRequest
deriving DecidableEq, Repr

/-- The request-building part of `callAPI`: decode already done, branch on
`strings.ToUpper(HTTPMethod) == "POST"`; POST sends the form-encoded payload
as the body with the form content type, any other method token becomes a GET
with the payload encoded into the URL query and no body. -/
def buildRequest (cfg : SchedulerConfig) (payload : List (String × String)) :
    Except BuildErr Request :=
  if toUpperAscii cfg.HTTPMethod = "POST" then
    match urlParse cfg.APIURL with
    | none => .error .newRequest
    | some _ =>
      .ok { method := "POST", url := cfg.APIURL,
            body := some (encodeValues payload),
            contentType := some "application/x-www-form-urlencoded" }
  else
    match urlParse cfg.APIURL with
    | none => .error .urlParse
    | some u =>
      .ok { method := "GET",
            url := urlString { base := u.base, rawQuery := encodeValues payload },
            body := none, contentType := none }

/-- Whether `callAPI` gets past request construction for this config. -/
def buildOk (cfg : SchedulerConfig) : Bool :=
  match buildRequest cfg (decodePayload cfg.Payload) with
  | .ok _ => true
  | .error _ => false

/-! ## Dispatch and the run loop -/

/-- What the network does on one dispatch: the transport fails (or times
out), the response arrives but reading its body fails, or a full response
with a status code and body is read. -/
inductive HTTPResult
  | transportError
  | bodyReadError (code : Nat)
  | ok (code : Nat) (body : String)
deriving DecidableEq, Repr

/-- `callAPI` from scheduler.go.  Returns the updated state and whether the
job self-terminated (the `resp.StatusCode == http.StatusOK` branch, which
calls `StopScheduler` on the job's own id). -/
def callAPI (st : SysState) (id : String) (cfg : SchedulerConfig) (resp : HTTPResult) :
    SysState × Bool :=
  let st1 := logS st (callStartMsg id cfg)
  match buildRequest cfg (decodePayload cfg.Payload) with
  | .error .newRequest => (logS st1 (reqErrMsg id), false)
  | .error .urlParse => (logS st1 (urlParseErrMsg id), false)
  | .ok _ =>
    match resp with
    | .transportError => (logS st1 (callErrMsg id), false)
    | .bodyReadError _ => (logS st1 (readErrMsg id), false)
    | .ok code body =>
      let st2 := logS (logS st1 (statusMsg id code)) (bodyMsg id body)
      if code = 200 then (StopScheduler (logS st2 (autoStopMsg id)) id, true)
      else (st2, false)

/-- One event observed by the `select` in the run loop: the ticker fires and
a dispatch happens with the given network outcome, or `stopChan` is closed. -/
inductive TickEvent
  | tick (r : HTTPResult)
  | stop
deriving DecidableEq, Repr

/-- How `run` ended. -/
inductive RunExit
  | parseError
  | stoppedBeforeStart
  | invalidUnit
  | tickerPanic
  | stopped
  | selfTerminated
  | ranOut
deriving DecidableEq, Repr

/-- Did the job reach the `Running` (ticking) phase?  Exactly the exits that
happen at or after the `for { select ... } }` loop. -/
def enteredRunning : RunExit → Bool
  | .stopped => true
  | .selfTerminated => true
  | .ranOut => true
  | _ => false

/-- The `for { select { case <-ticker.C ... case <-s.stopChan ... } }` loop.
Returns the final state, the number of dispatches performed, and the exit;
`ranOut` means the supplied event sequence ended with the job still ticking. -/
def runLoop (id : String) (cfg : SchedulerConfig) :
    SysState → List TickEvent → Nat → SysState × Nat × RunExit
  | st, [], n => (st, n, .ranOut)
  | st, .stop :: _, n => (logS st (stoppedMsg id), n, .stopped)
  | st, .tick r :: rest, n =>
    let p := callAPI st id cfg r
    if p.2 then (p.1, n + 1, .selfTerminated) else runLoop id cfg p.1 rest (n + 1)

/-- `run` from scheduler.go, as a function of the environment: `d0` is the
instant of today's local midnight and `now` the current instant (both in
integer seconds), `stopDuringWait` tells whether `stopChan` fired before the
start time was reached, and `events` drives the ticking loop.  Returns the
final state, the dispatch count, and the exit taken. -/
def run (st : SysState) (id : String) (cfg : SchedulerConfig) (d0 now : Int)
    (stopDuringWait : Bool) (events : List TickEvent) : SysState × Nat × RunExit :=
  let st1 := logS (logS st (startReqMsg id)) (configMsg id cfg)
  match parseClock cfg.StartTime with
  | none => (StopScheduler (logS st1 (parseErrMsg id)) id, 0, .parseError)
  | some c =>
    let target := computeTarget (d0 + (secOfDay c : Int)) now
    let _waitDuration := target - now
    let st2 := logS st1 (waitingMsg id)
    if stopDuringWait then (logS st2 (stoppedBeforeStartMsg id), 0, .stoppedBeforeStart)
    else
      match repeatIntervalNs cfg with
      | none => (StopScheduler (logS st2 (invalidUnitMsg id)) id, 0, .invalidUnit)
      | some d =>
        if newTickerPanics d then (st2, 0, .tickerPanic)
        else runLoop id cfg (logS st2 (runningMsg id)) events 0

/-! ## Derived predicates and concrete fixtures -/

/-- Does `StopScheduler st id` take the "스케줄러가 실행 중이지 않습니다"
(present but not running) branch? -/
def stopNotRunningBranch (st : SysState) (id : String) : Bool :=
  match lookupS st.schedulers id with
  | some s => !s.running
  | none => false

/-- A well-formed sample configuration (used to instantiate theorems with
hypotheses at concrete inputs). -/
def cfgA : SchedulerConfig :=
  { StartTime := "12:00:00", RepeatValue := 1, RepeatUnit := "s",
    APIURL := "http://localhost:8080/fake-server", HTTPMethod := "GET",
    Payload := "" }

/-- The scheduler `StartScheduler` builds for `cfgA` under id "job1". -/
def schedA : Scheduler :=
  { id := "job1", running := true, config := cfgA }

/-- A sample registry state holding the single running scheduler `schedA`. -/
def stA : SysState :=
  { schedulers := [("job1", schedA)], logs := [] }

/-- A sample configuration whose repeat unit is not one of h, m, s. -/
def cfgX : SchedulerConfig :=
  { StartTime := "12:00:00", RepeatValue := 1, RepeatUnit := "x",
    APIURL := "http://localhost:8080/fake-server", HTTPMethod := "GET",
    Payload := "" }

/-- A sample configuration whose payload blob fails to decode. -/
def cfgOops : SchedulerConfig :=
  { StartTime := "12:00:00", RepeatValue := 1, RepeatUnit := "s",
    APIURL := "http://localhost:8080/fake-server", HTTPMethod := "GET",
    Payload := "oops" }

/-- A sample configuration with a non-POST method token and a decodable
one-pair payload. -/
def cfgDelete : SchedulerConfig :=
  { StartTime := "12:00:00", RepeatValue := 1, RepeatUnit := "s",
    APIURL := "http://localhost:8080/fake-server", HTTPMethod := "Delete",
    Payload := "\x7b\"k\":\"v\"\x7d" }

/-- The parsed form of the sample target URL (no query, no control chars). -/
def uFake : URL :=
  { base := "http://localhost:8080/fake-server", rawQuery := "" }

/-- A configuration whose payload is a valid JSON object with one string
member and one number member: `json.Unmarshal` returns a type error, yet
best-effort decoding stores k = v (and n = the empty string). -/
def cfgPartial : SchedulerConfig :=
  { StartTime := "12:00:00", RepeatValue := 1, RepeatUnit := "s",
    APIURL := "http://localhost:8080/fake-server", HTTPMethod := "GET",
    Payload := "\x7b\"k\":\"v\",\"n\":1\x7d" }

/-- A configuration violating the spec's `repeatValue` positivity invariant:
`repeatValue = 0` with the recognized unit `"s"` and a parseable start time. -/
def cfgZero : SchedulerConfig :=
  { StartTime := "00:00:00", RepeatValue := 0, RepeatUnit := "s",
    APIURL := "http://localhost:8080/fake-server", HTTPMethod := "GET",
    Payload := "" }

/-- 150 sample diagnostic entries, for exercising the log cap. -/
def entries150 : List (String × String) :=
  (List.range 150).map (fun i => ("00:00:00", toString i))
/-! ### Association-list lemmas (Go map semantics) -/

lemma mem_of_lookupS {m : List (String × Scheduler)} {id : String} {s : Scheduler}
    (h : lookupS m id = some s) : (id, s) ∈ m := by
  induction m with
  | nil => simp [lookupS] at h
  | cons p rest ih =>
    obtain ⟨k, v⟩ := p
    simp only [lookupS] at h
    by_cases hk : k = id
    · rw [if_pos hk] at h
      injection h with h
      subst hk h
      exact List.mem_cons_self _ _
    · rw [if_neg hk] at h
      exact List.mem_cons_of_mem _ (ih h)

lemma lookupS_eq_none_of_not_mem {m : List (String × Scheduler)} {id : String}
    (h : id ∉ keysOf m) : lookupS m id = none := by
  induction m with
  | nil => rfl
  | cons p rest ih =>
    obtain ⟨k, v⟩ := p
    simp only [keysOf, List.map_cons, List.mem_cons, not_or] at h
    simp only [lookupS]
    rw [if_neg (fun hk => h.1 hk.symm)]
    exact ih h.2

lemma lookupS_updateS_self (m : List (String × Scheduler)) (id : String) (s : Scheduler) :
    lookupS (updateS m id s) id = some s := by
  induction m with
  | nil => simp [updateS, lookupS]
  | cons p rest ih =>
    obtain ⟨k, v⟩ := p
    by_cases hk : k = id
    · simp [updateS, lookupS, hk]
    · simp [updateS, lookupS, hk, ih]

lemma mem_keysOf_updateS {m : List (String × Scheduler)} {id a : String} {s : Scheduler}
    (h : a ∈ keysOf (updateS m id s)) : a ∈ keysOf m ∨ a = id := by
  induction m with
  | nil => simpa [updateS, keysOf] using h
  | cons p rest ih =>
    obtain ⟨k, v⟩ := p
    by_cases hk : k = id
    · simp only [updateS, if_pos hk, keysOf, List.map_cons, List.mem_cons] at h
      rcases h with h | h
      · right; exact h
      · left; simp [keysOf, hk, List.mem_cons]; right
        simpa [keysOf] using h
    · simp only [updateS, if_neg hk, keysOf, List.map_cons, List.mem_cons] at h
      rcases h with h | h
      · left; simp [keysOf, h]
      · rcases ih (by simpa [keysOf] using h) with h2 | h2
        · left; simp only [keysOf, List.map_cons, List.mem_cons]; right
          simpa [keysOf] using h2
        · right; exact h2

lemma keysNodup_updateS {m : List (String × Scheduler)} {id : String} {s : Scheduler}
    (h : keysNodup m) : keysNodup (updateS m id s) := by
  induction m with
  | nil => simp [updateS, keysNodup, keysOf]
  | cons p rest ih =>
    obtain ⟨k, v⟩ := p
    simp only [keysNodup, keysOf, List.map_cons, List.nodup_cons] at h
    by_cases hk : k = id
    · simp only [updateS, if_pos hk, keysNodup, keysOf, List.map_cons, List.nodup_cons]
      exact ⟨by rw [← hk]; exact h.1, h.2⟩
    · simp only [updateS, if_neg hk, keysNodup, keysOf, List.map_cons, List.nodup_cons]
      constructor
      · intro hmem
        rcases mem_keysOf_updateS (by simpa [keysOf] using hmem) with h2 | h2
        · exact h.1 (by simpa [keysOf] using h2)
        · exact hk h2
      · exact ih h.2

lemma keysOf_eraseS_sublist (m : List (String × Scheduler)) (id : String) :
    (keysOf (eraseS m id)).Sublist (keysOf m) := by
  induction m with
  | nil => simp [eraseS, keysOf]
  | cons p rest ih =>
    obtain ⟨k, v⟩ := p
    by_cases hk : k = id
    · simp only [eraseS, if_pos hk, keysOf, List.map_cons]
      exact List.sublist_cons_self _ _
    · simp only [eraseS, if_neg hk, keysOf, List.map_cons]
      exact List.Sublist.cons₂ _ ih

lemma keysNodup_eraseS {m : List (String × Scheduler)} {id : String}
    (h : keysNodup m) : keysNodup (eraseS m id) :=
  List.Nodup.sublist (keysOf_eraseS_sublist m id) h

lemma mem_of_mem_eraseS {m : List (String × Scheduler)} {id : String}
    {p : String × Scheduler} (h : p ∈ eraseS m id) : p ∈ m := by
  induction m with
  | nil => simp [eraseS] at h
  | cons q rest ih =>
    obtain ⟨k, v⟩ := q
    by_cases hk : k = id
    · simp only [eraseS, if_pos hk] at h
      exact List.mem_cons_of_mem _ h
    · simp only [eraseS, if_neg hk, List.mem_cons] at h
      rcases h with h | h
      · simp [h]
      · exact List.mem_cons_of_mem _ (ih h)

lemma lookupS_eraseS_self {m : List (String × Scheduler)} {id : String}
    (h : keysNodup m) : lookupS (eraseS m id) id = none := by
  induction m with
  | nil => rfl
  | cons p rest ih =>
    obtain ⟨k, v⟩ := p
    simp only [keysNodup, keysOf, List.map_cons, List.nodup_cons] at h
    by_cases hk : k = id
    · simp only [eraseS, if_pos hk]
      apply lookupS_eq_none_of_not_mem
      rw [← hk]
      simpa [keysOf] using h.1
    · simp only [eraseS, if_neg hk, lookupS, if_neg hk]
      exact ih h.2

lemma allRunning_updateS {m : List (String × Scheduler)} {id : String} {s : Scheduler}
    (h : allRunning m) (hs : s.running = true) : allRunning (updateS m id s) := by
  induction m with
  | nil =>
    intro p hp
    simp only [updateS, List.mem_singleton] at hp
    rw [hp]; exact hs
  | cons q rest ih =>
    obtain ⟨k, v⟩ := q
    have hv : v.running = true := h (k, v) (List.mem_cons_self _ _)
    have hrest : allRunning rest := fun p hp => h p (List.mem_cons_of_mem _ hp)
    intro p hp
    by_cases hk : k = id
    · simp only [updateS, if_pos hk, List.mem_cons] at hp
      rcases hp with hp | hp
      · rw [hp]; exact hs
      · exact hrest p hp
    · simp only [updateS, if_neg hk, List.mem_cons] at hp
      rcases hp with hp | hp
      · rw [hp]; exact hv
      · exact ih hrest p hp

lemma allRunning_eraseS {m : List (String × Scheduler)} {id : String}
    (h : allRunning m) : allRunning (eraseS m id) :=
  fun p hp => h p (mem_of_mem_eraseS hp)


/-- Registry well-formedness holds in every reachable state: identifiers are
unique (it is a Go map) and every held scheduler is running. -/
lemma reachable_wf {st : SysState} (h : Reachable st) :
    keysNodup st.schedulers ∧ allRunning st.schedulers := by
  induction h with
  | init => exact ⟨by simp [keysNodup, keysOf], by intro p hp; simp at hp⟩
  | start id cfg hst ih =>
    unfold StartScheduler
    cases hl : lookupS _ id with
    | some s => simpa [logS] using ih
    | none =>
      simp only
      exact ⟨keysNodup_updateS ih.1, allRunning_updateS ih.2 rfl⟩
  | stop id hst ih =>
    unfold StopScheduler
    cases hl : lookupS _ id with
    | some s =>
      by_cases hr : s.running
      · simp only [if_pos hr]
        exact ⟨keysNodup_eraseS ih.1, allRunning_eraseS ih.2⟩
      · simpa [if_neg hr, logS] using ih
    | none => simpa [logS] using ih
  | log m hst ih => simpa [logS] using ih

lemma parseClock_bounds {s : String} {c : Nat × Nat × Nat}
    (h : parseClock s = some c) : c.1 < 24 ∧ c.2.1 < 60 ∧ c.2.2 < 60 := by
  unfold parseClock at h
  repeat split at h
  any_goals exact Option.noConfusion h
  injection h with h
  subst h
  assumption

lemma secOfDay_lt {s : String} {c : Nat × Nat × Nat}
    (h : parseClock s = some c) : secOfDay c < 86400 := by
  obtain ⟨h1, h2, h3⟩ := parseClock_bounds h
  unfold secOfDay
  omega


/-! ## Logger lemmas -/

lemma addCapped_length_le {α : Type} (logs : List α) (e : α) (h : logs.length ≤ 100) :
    (addCapped logs e).length ≤ 100 := by
  simp only [addCapped]
  split
  · simp only [List.length_drop, List.length_append, List.length_singleton]
    omega
  · next hle =>
    simp only [List.length_append, List.length_singleton] at hle ⊢
    omega

/-- Folding `addCapped` over a whole input list from the empty log keeps
exactly the final (at most) 100 elements, in order. -/
lemma foldl_addCapped_eq {α : Type} (l : List α) :
    List.foldl addCapped ([] : List α) l = l.drop (l.length - 100) := by
  induction l using List.reverseRecOn with
  | nil => simp
  | append_singleton l e ih =>
    rw [List.foldl_append, List.foldl_cons, List.foldl_nil, ih]
    by_cases hn : l.length ≤ 99
    · have h0 : l.length - 100 = 0 := by omega
      have h1 : (l ++ [e]).length - 100 = 0 := by
        simp only [List.length_append, List.length_singleton]; omega
      rw [h0, List.drop_zero, h1, List.drop_zero]
      simp only [addCapped]
      rw [if_neg (by simp only [List.length_append, List.length_singleton]; omega)]
    · have hlen : (l.drop (l.length - 100)).length = 100 := by
        rw [List.length_drop]; omega
      simp only [addCapped]
      rw [if_pos (by rw [List.length_append, hlen, List.length_singleton]; omega)]
      rw [List.drop_append_of_le_length (by rw [hlen]; omega),
        List.drop_drop,
        List.length_append, List.length_singleton,
        List.drop_append_of_le_length (by omega)]
      have harith : l.length - 100 + 1 = l.length + 1 - 100 := by omega
      rw [harith]

/-! ## Registry helper lemmas -/

lemma logS_schedulers (st : SysState) (m : String) :
    (logS st m).schedulers = st.schedulers :=
  rfl

lemma stopScheduler_of_lookup_none {st : SysState} {id : String}
    (h : lookupS st.schedulers id = none) :
    StopScheduler st id = logS st (notFoundMsg id) := by
  unfold StopScheduler
  rw [h]

lemma lookupS_stopScheduler_self {st : SysState} {id : String}
    (hnd : keysNodup st.schedulers) (har : allRunning st.schedulers) :
    lookupS (StopScheduler st id).schedulers id = none := by
  unfold StopScheduler
  cases hl : lookupS st.schedulers id with
  | none => exact hl
  | some s =>
    have hr : s.running = true := har _ (mem_of_lookupS hl)
    simp only [hr, if_true]
    exact lookupS_eraseS_self hnd

/-! ## Claim theorems -/

/-- C3: For every sequence of `AddLog` calls starting from the empty log,
the log holds at most 100 entries and the surviving entries are exactly the
most recent ones in insertion order (the first `length - 100` inserted
entries are dropped, oldest first); in particular after inserting 150
entries exactly the most recent 100 remain, the first 50 dropped. -/
theorem addLog_cap_most_recent_100 (entries : List (String × String)) :
    (List.foldl (fun l e => AddLog l e.1 e.2) [] entries).length ≤ 100 ∧
    List.foldl (fun l e => AddLog l e.1 e.2) [] entries
      = (entries.map (fun e => LogEntry.mk e.1 e.2)).drop (entries.length - 100) ∧
    (entries.length = 150 →
      List.foldl (fun l e => AddLog l e.1 e.2) [] entries
        = (entries.map (fun e => LogEntry.mk e.1 e.2)).drop 50) := by
  have key : List.foldl (fun l e => AddLog l e.1 e.2) [] entries
      = List.foldl addCapped [] (entries.map (fun e => LogEntry.mk e.1 e.2)) := by
    rw [List.foldl_map]
    rfl
  have main : List.foldl (fun l e => AddLog l e.1 e.2) [] entries
      = (entries.map (fun e => LogEntry.mk e.1 e.2)).drop (entries.length - 100) := by
    rw [key, foldl_addCapped_eq, List.length_map]
  refine ⟨?_, main, ?_⟩
  · rw [main, List.length_drop, List.length_map]
    omega
  · intro h150
    rw [main, h150]

/-- C3 witness: inserting the 150 concrete entries of `entries150` leaves
exactly the most recent 100, in order. -/
theorem addLog_cap_most_recent_100_witness :
    entries150.length = 150 ∧
    List.foldl (fun l e => AddLog l e.1 e.2) [] entries150
      = (entries150.map (fun e => LogEntry.mk e.1 e.2)).drop 50 :=
  ⟨by simp [entries150], (addLog_cap_most_recent_100 entries150).2.2 (by simp [entries150])⟩

/-- C1: If `id` is already present in the registry, `StartScheduler id cfg2`
leaves the registry (hence the first job and its config) unchanged, appends
only the "already running" diagnostic, and creates no second job. -/
theorem startScheduler_duplicate_noop (st : SysState) (id : String)
    (cfg2 : SchedulerConfig) (s : Scheduler)
    (h : lookupS st.schedulers id = some s) :
    (StartScheduler st id cfg2).schedulers = st.schedulers ∧
    lookupS (StartScheduler st id cfg2).schedulers id = some s ∧
    (StartScheduler st id cfg2).logs = addCapped st.logs (dupMsg id) := by
  unfold StartScheduler
  rw [h]
  exact ⟨rfl, h, rfl⟩

/-- C1 witness: starting "job1" again over `stA` (where it is registered
with config `cfgA`) changes nothing and logs the duplicate diagnostic. -/
theorem startScheduler_duplicate_noop_witness :
    (StartScheduler stA "job1" cfgZero).schedulers = stA.schedulers ∧
    lookupS (StartScheduler stA "job1" cfgZero).schedulers "job1" = some schedA ∧
    (StartScheduler stA "job1" cfgZero).logs = addCapped stA.logs (dupMsg "job1") :=
  startScheduler_duplicate_noop stA "job1" cfgZero schedA (by decide)

/-- C2: Over a well-formed registry, stopping an unregistered `id` logs the
"not found" diagnostic and leaves the registry unchanged; and a second
`StopScheduler id` right after a first one always finds `id` absent, so it
leaves the registry as the first call left it and logs "not found". -/
theorem stopScheduler_notFound_idempotent (st : SysState) (id : String)
    (hnd : keysNodup st.schedulers) (har : allRunning st.schedulers) :
    (lookupS st.schedulers id = none →
      (StopScheduler st id).schedulers = st.schedulers ∧
      (StopScheduler st id).logs = addCapped st.logs (notFoundMsg id)) ∧
    (StopScheduler (StopScheduler st id) id).schedulers
      = (StopScheduler st id).schedulers ∧
    (StopScheduler (StopScheduler st id) id).logs
      = addCapped (StopScheduler st id).logs (notFoundMsg id) := by
  have hnone : lookupS (StopScheduler st id).schedulers id = none :=
    lookupS_stopScheduler_self hnd har
  refine ⟨?_, ?_, ?_⟩
  · intro h
    rw [stopScheduler_of_lookup_none h]
    exact ⟨rfl, rfl⟩
  · rw [stopScheduler_of_lookup_none hnone]
    exact rfl
  · rw [stopScheduler_of_lookup_none hnone]
    exact rfl

/-- C2 witness: over `stA`, stopping the unregistered id "ghost" twice:
the first call already leaves the registry unchanged with a "not found"
log, and so does the second. -/
theorem stopScheduler_notFound_idempotent_witness :
    ((lookupS stA.schedulers "ghost" = none →
      (StopScheduler stA "ghost").schedulers = stA.schedulers ∧
      (StopScheduler stA "ghost").logs = addCapped stA.logs (notFoundMsg "ghost")) ∧
    (StopScheduler (StopScheduler stA "ghost") "ghost").schedulers
      = (StopScheduler stA "ghost").schedulers ∧
    (StopScheduler (StopScheduler stA "ghost") "ghost").logs
      = addCapped (StopScheduler stA "ghost").logs (notFoundMsg "ghost")) :=
  stopScheduler_notFound_idempotent stA "ghost" (by decide) (by decide)

/-- C10: In every reachable registry state, every held scheduler has
`running = true`, so the "present but not running" branch of
`StopScheduler` is never taken for any id. -/
theorem registry_allRunning_invariant (st : SysState) (h : Reachable st) :
    allRunning st.schedulers ∧ ∀ id, stopNotRunningBranch st id = false := by
  have hwf := reachable_wf h
  refine ⟨hwf.2, ?_⟩
  intro id
  unfold stopNotRunningBranch
  cases hl : lookupS st.schedulers id with
  | none => rfl
  | some s =>
    have hr : s.running = true := hwf.2 _ (mem_of_lookupS hl)
    simp [hr]

/-- C10 witness: the invariant at the concrete reachable state obtained by
starting "job1", starting it again (duplicate), and stopping "ghost". -/
theorem registry_allRunning_invariant_witness :
    allRunning (StopScheduler (StartScheduler (StartScheduler
        { schedulers := [], logs := [] } "job1" cfgA) "job1" cfgA) "ghost").schedulers ∧
    ∀ id, stopNotRunningBranch (StopScheduler (StartScheduler (StartScheduler
        { schedulers := [], logs := [] } "job1" cfgA) "job1" cfgA) "ghost") id = false :=
  registry_allRunning_invariant _
    (Reachable.stop "ghost" (Reachable.start "job1" cfgA
      (Reachable.start "job1" cfgA Reachable.init)))

/-! ## Run-phase helper lemmas -/

lemma repeatIntervalNs_eq_none {cfg : SchedulerConfig}
    (h1 : cfg.RepeatUnit ≠ "h") (h2 : cfg.RepeatUnit ≠ "m") (h3 : cfg.RepeatUnit ≠ "s") :
    repeatIntervalNs cfg = none := by
  unfold repeatIntervalNs
  split <;> simp_all

lemma run_eq_parseError {st : SysState} {id : String} {cfg : SchedulerConfig}
    {d0 now : Int} {sd : Bool} {events : List TickEvent}
    (hpc : parseClock cfg.StartTime = none) :
    run st id cfg d0 now sd events
      = (StopScheduler (logS (logS (logS st (startReqMsg id)) (configMsg id cfg))
          (parseErrMsg id)) id, 0, RunExit.parseError) := by
  simp only [run, hpc]

lemma run_eq_stoppedBeforeStart {st : SysState} {id : String} {cfg : SchedulerConfig}
    {d0 now : Int} {events : List TickEvent} {c : Nat × Nat × Nat}
    (hpc : parseClock cfg.StartTime = some c) :
    run st id cfg d0 now true events
      = (logS (logS (logS (logS st (startReqMsg id)) (configMsg id cfg))
          (waitingMsg id)) (stoppedBeforeStartMsg id), 0, RunExit.stoppedBeforeStart) := by
  simp only [run, hpc]
  rw [if_pos trivial]

lemma run_eq_invalidUnit {st : SysState} {id : String} {cfg : SchedulerConfig}
    {d0 now : Int} {events : List TickEvent} {c : Nat × Nat × Nat}
    (hpc : parseClock cfg.StartTime = some c)
    (hru : repeatIntervalNs cfg = none) :
    run st id cfg d0 now false events
      = (StopScheduler (logS (logS (logS (logS st (startReqMsg id)) (configMsg id cfg))
          (waitingMsg id)) (invalidUnitMsg id)) id, 0, RunExit.invalidUnit) := by
  simp only [run, hpc, hru]
  simp

lemma runLoop_exit_ne_panic (id : String) (cfg : SchedulerConfig) :
    ∀ (events : List TickEvent) (st : SysState) (n : Nat),
      (runLoop id cfg st events n).2.2 ≠ RunExit.tickerPanic
  | [], st, n => by simp [runLoop]
  | .stop :: rest, st, n => by simp [runLoop]
  | .tick r :: rest, st, n => by
    simp only [runLoop]
    split
    · simp
    · exact runLoop_exit_ne_panic id cfg rest _ _

/-- C4: A job whose repeat unit is not one of h, m, s never reaches the
`Running` (ticking) phase and performs no dispatch, whatever the
environment does; and when the start time parses and no stop arrives during
the wait it exits through the invalid-unit branch, whose self-removal
(`StopScheduler` on its own id) leaves the identifier free. -/
theorem invalidUnit_terminates_without_dispatch (st : SysState) (id : String)
    (cfg : SchedulerConfig) (d0 now : Int) (sd : Bool) (events : List TickEvent)
    (hnd : keysNodup st.schedulers) (har : allRunning st.schedulers)
    (h1 : cfg.RepeatUnit ≠ "h") (h2 : cfg.RepeatUnit ≠ "m") (h3 : cfg.RepeatUnit ≠ "s") :
    enteredRunning (run st id cfg d0 now sd events).2.2 = false ∧
    (run st id cfg d0 now sd events).2.1 = 0 ∧
    (∀ c, parseClock cfg.StartTime = some c → sd = false →
      (run st id cfg d0 now sd events).2.2 = RunExit.invalidUnit ∧
      lookupS (run st id cfg d0 now sd events).1.schedulers id = none) := by
  have hru : repeatIntervalNs cfg = none := repeatIntervalNs_eq_none h1 h2 h3
  cases hpc : parseClock cfg.StartTime with
  | none =>
    rw [run_eq_parseError hpc]
    refine ⟨rfl, rfl, ?_⟩
    intro c hc
    exact absurd hc (by simp)
  | some c =>
    cases sd with
    | true =>
      rw [run_eq_stoppedBeforeStart hpc]
      exact ⟨rfl, rfl, fun c2 hc2 hsd => absurd hsd (by simp)⟩
    | false =>
      rw [run_eq_invalidUnit hpc hru]
      refine ⟨rfl, rfl, ?_⟩
      intro c2 hc2 hsd
      refine ⟨rfl, ?_⟩
      apply lookupS_stopScheduler_self <;> simp only [logS_schedulers] <;> assumption

/-- C4 witness: over `stA`, a job for "job1" with unit "x" and valid start
time, no stop signal and an available tick: no dispatch happens, `Running`
is never entered, the exit is the invalid-unit branch and "job1" is freed. -/
theorem invalidUnit_terminates_without_dispatch_witness :
    enteredRunning (run stA "job1" cfgX
      0 0 false [TickEvent.tick (HTTPResult.ok 200 "")]).2.2 = false ∧
    (run stA "job1" cfgX
      0 0 false [TickEvent.tick (HTTPResult.ok 200 "")]).2.1 = 0 ∧
    (∀ c, parseClock cfgX.StartTime = some c → false = false →
      (run stA "job1" cfgX
        0 0 false [TickEvent.tick (HTTPResult.ok 200 "")]).2.2 = RunExit.invalidUnit ∧
      lookupS (run stA "job1" cfgX
        0 0 false [TickEvent.tick (HTTPResult.ok 200 "")]).1.schedulers "job1" = none) :=
  invalidUnit_terminates_without_dispatch stA "job1" cfgX 0 0 false
    [TickEvent.tick (HTTPResult.ok 200 "")]
    (by decide) (by decide) (by decide) (by decide) (by decide)

/-! ## Dispatch helper lemmas -/

lemma callAPI_eq_ok_200 {st : SysState} {id : String} {cfg : SchedulerConfig}
    {body : String} {req : Request}
    (hbr : buildRequest cfg (decodePayload cfg.Payload) = Except.ok req) :
    callAPI st id cfg (HTTPResult.ok 200 body)
      = (StopScheduler (logS (logS (logS (logS st (callStartMsg id cfg))
          (statusMsg id 200)) (bodyMsg id body)) (autoStopMsg id)) id, true) := by
  simp only [callAPI, hbr]
  rw [if_pos trivial]

lemma callAPI_eq_ok_ne200 {st : SysState} {id : String} {cfg : SchedulerConfig}
    {code : Nat} {body : String} {req : Request}
    (hbr : buildRequest cfg (decodePayload cfg.Payload) = Except.ok req)
    (hc : code ≠ 200) :
    callAPI st id cfg (HTTPResult.ok code body)
      = (logS (logS (logS st (callStartMsg id cfg)) (statusMsg id code))
          (bodyMsg id body), false) := by
  simp only [callAPI, hbr]
  rw [if_neg hc]

/-- C5: For a dispatch whose response is fully read, the job self-terminates
(the second component of `callAPI`) exactly when the status code is 200.
On a 200 the job's id is removed from the registry and a subsequent
`StartScheduler` with the same id succeeds, inserting a fresh running job;
on any other status code the registry is untouched. -/
theorem callAPI_selfstop_iff_200 (st : SysState) (id : String) (cfg : SchedulerConfig)
    (code : Nat) (body : String) (cfg2 : SchedulerConfig) (req : Request)
    (hnd : keysNodup st.schedulers) (har : allRunning st.schedulers)
    (hbr : buildRequest cfg (decodePayload cfg.Payload) = Except.ok req) :
    ((callAPI st id cfg (HTTPResult.ok code body)).2 = true ↔ code = 200) ∧
    (code = 200 →
      lookupS (callAPI st id cfg (HTTPResult.ok code body)).1.schedulers id = none ∧
      lookupS (StartScheduler (callAPI st id cfg (HTTPResult.ok code body)).1 id
          cfg2).schedulers id
        = some { id := id, running := true, config := cfg2 }) ∧
    (code ≠ 200 →
      (callAPI st id cfg (HTTPResult.ok code body)).1.schedulers = st.schedulers) := by
  by_cases hc : code = 200
  · subst hc
    rw [callAPI_eq_ok_200 hbr]
    have hln : lookupS (StopScheduler (logS (logS (logS (logS st (callStartMsg id cfg))
        (statusMsg id 200)) (bodyMsg id body)) (autoStopMsg id)) id).schedulers id = none := by
      apply lookupS_stopScheduler_self <;> simp only [logS_schedulers] <;> assumption
    refine ⟨by simp, fun _ => ⟨hln, ?_⟩, fun hne => absurd rfl hne⟩
    unfold StartScheduler
    rw [hln]
    exact lookupS_updateS_self _ _ _
  · rw [callAPI_eq_ok_ne200 hbr hc]
    refine ⟨by simp [hc], fun h => absurd h hc, fun _ => ?_⟩
    simp only [logS_schedulers]

/-- C5 witness: over `stA` with config `cfgA`, a fully read 200 response
terminates the job, frees "job1", and a fresh start for "job1" succeeds; the
iff instantiates at code 200. -/
theorem callAPI_selfstop_iff_200_witness :
    ((callAPI stA "job1" cfgA (HTTPResult.ok 200 "done")).2 = true ↔ 200 = 200) ∧
    (200 = 200 →
      lookupS (callAPI stA "job1" cfgA (HTTPResult.ok 200 "done")).1.schedulers "job1" = none ∧
      lookupS (StartScheduler (callAPI stA "job1" cfgA
          (HTTPResult.ok 200 "done")).1 "job1" cfgA).schedulers "job1"
        = some { id := "job1", running := true, config := cfgA }) ∧
    (200 ≠ 200 →
      (callAPI stA "job1" cfgA (HTTPResult.ok 200 "done")).1.schedulers = stA.schedulers) :=
  callAPI_selfstop_iff_200 stA "job1" cfgA 200 "done" cfgA
    { method := "GET", url := "http://localhost:8080/fake-server",
      body := none, contentType := none }
    (by decide) (by decide) (by rfl)

/-- C6: For a start instant built from a successfully parsed time-of-day on
today's date, the rollover in `run` adds exactly 24 hours (86400 s) exactly
once when the instant lies strictly in the past, leaves it unshifted
otherwise, and in both cases the single correction already yields an
instant no earlier than now (so no further search is ever needed). -/
theorem rollover_single_24h_shift (s : String) (c : Nat × Nat × Nat) (d0 now : Int)
    (hp : parseClock s = some c) (h1 : d0 ≤ now) (h2 : now < d0 + 86400) :
    (secOfDay c : Int) < 86400 ∧
    (d0 + (secOfDay c : Int) < now →
      computeTarget (d0 + (secOfDay c : Int)) now = d0 + (secOfDay c : Int) + 86400) ∧
    (now ≤ d0 + (secOfDay c : Int) →
      computeTarget (d0 + (secOfDay c : Int)) now = d0 + (secOfDay c : Int)) ∧
    now ≤ computeTarget (d0 + (secOfDay c : Int)) now := by
  have hb := secOfDay_lt hp
  refine ⟨by exact_mod_cast hb, ?_, ?_, ?_⟩
  · intro h
    unfold computeTarget
    rw [if_pos h]
  · intro h
    unfold computeTarget
    rw [if_neg (not_lt.mpr h)]
  · unfold computeTarget
    split
    · omega
    · omega

/-- C6 witness: time-of-day 23:59:59 over midnight instant 0 with now at
noon: the slot is still ahead, so no shift happens; the bounds hold. -/
theorem rollover_single_24h_shift_witness :
    ((secOfDay (23, 59, 59) : Int) < 86400 ∧
    ((0 : Int) + (secOfDay (23, 59, 59) : Int) < 43200 →
      computeTarget ((0 : Int) + (secOfDay (23, 59, 59) : Int)) 43200
        = (0 : Int) + (secOfDay (23, 59, 59) : Int) + 86400) ∧
    ((43200 : Int) ≤ (0 : Int) + (secOfDay (23, 59, 59) : Int) →
      computeTarget ((0 : Int) + (secOfDay (23, 59, 59) : Int)) 43200
        = (0 : Int) + (secOfDay (23, 59, 59) : Int)) ∧
    (43200 : Int) ≤ computeTarget ((0 : Int) + (secOfDay (23, 59, 59) : Int)) 43200) :=
  rollover_single_24h_shift "23:59:59" (23, 59, 59) 0 43200
    (by decide) (by decide) (by decide)

/-! ## Payload and URL claim lemmas -/

lemma splitQ_eq_of_no_mark {l : List Char} (h : ∀ ch ∈ l, ch ≠ '?') :
    splitQ l = (l, []) := by
  induction l with
  | nil => rfl
  | cons c rest ih =>
    have hc : c ≠ '?' := h c (List.mem_cons_self _ _)
    simp only [splitQ, if_neg hc]
    rw [ih (fun ch hm => h ch (List.mem_cons_of_mem _ hm))]

/-- When the target URL parses, request construction always succeeds,
whatever the payload decoded to. -/
lemma buildRequest_ok_of_urlParse {cfg : SchedulerConfig} {u : URL}
    (hurl : urlParse cfg.APIURL = some u) (payload : List (String × String)) :
    ∃ req, buildRequest cfg payload = Except.ok req := by
  unfold buildRequest
  by_cases hm : toUpperAscii cfg.HTTPMethod = "POST"
  · rw [if_pos hm, hurl]
    exact ⟨_, rfl⟩
  · rw [if_neg hm, hurl]
    exact ⟨_, rfl⟩

/-- C7 counterexample: the claim "every failing blob yields an empty
mapping and a request with no parameters" is false on the code.  The blob
of `cfgPartial` is a valid JSON object with a non-string member, so
`json.Unmarshal` returns a decode error, yet it best-effort-stores k = v
(and n = "") and the issued GET carries the query `k=v&n=`. -/
theorem payload_partial_decode_carries_parameters :
    decodeFails cfgPartial.Payload = true ∧
    decodePayload cfgPartial.Payload = [("k", "v"), ("n", "")] ∧
    buildRequest cfgPartial (decodePayload cfgPartial.Payload)
      = Except.ok { method := "GET",
                    url := "http://localhost:8080/fake-server?k=v&n=",
                    body := none, contentType := none } :=
  ⟨by rfl, by rfl, by rfl⟩

/-- C7 (amended): a payload decode failure never aborts the dispatch nor
terminates the job — the request is still built and self-termination
remains tied solely to an HTTP 200; and when the blob is not even valid
JSON (Go's syntax check fails), the mapping really is empty: an empty form
body for POST and a bare URL with no query parameters for GET.  (For a
valid object with non-string members the dispatch instead carries the
best-effort-decoded members, as the counterexample shows.) -/
theorem payload_decode_failure_never_aborts (cfg : SchedulerConfig) (u : URL)
    (hfail : decodeFails cfg.Payload = true)
    (hurl : urlParse cfg.APIURL = some u) :
    buildOk cfg = true ∧
    (∀ st id resp, (callAPI st id cfg resp).2 = true →
      ∃ body, resp = HTTPResult.ok 200 body) ∧
    (parseJSONTop cfg.Payload = none →
      decodePayload cfg.Payload = [] ∧
      (toUpperAscii cfg.HTTPMethod = "POST" →
        buildRequest cfg (decodePayload cfg.Payload)
          = Except.ok { method := "POST", url := cfg.APIURL, body := some "",
                        contentType := some "application/x-www-form-urlencoded" }) ∧
      (toUpperAscii cfg.HTTPMethod ≠ "POST" →
        buildRequest cfg (decodePayload cfg.Payload)
          = Except.ok { method := "GET", url := u.base, body := none,
                        contentType := none })) := by
  obtain ⟨req, hbr⟩ := buildRequest_ok_of_urlParse hurl (decodePayload cfg.Payload)
  refine ⟨?_, ?_, ?_⟩
  · unfold buildOk
    rw [hbr]
  · intro st id resp hterm
    cases resp with
    | transportError => simp [callAPI, hbr] at hterm
    | bodyReadError code => simp [callAPI, hbr] at hterm
    | ok code body =>
      by_cases hc : code = 200
      · exact ⟨body, by rw [hc]⟩
      · rw [callAPI_eq_ok_ne200 hbr hc] at hterm
        simp at hterm
  · intro hsyn
    have hd : decodePayload cfg.Payload = [] := by
      unfold decodePayload unmarshalPayload
      rw [hsyn]
    have henc : encodeValues [] = "" := rfl
    refine ⟨hd, ?_, ?_⟩
    · intro hm
      rw [hd]
      unfold buildRequest
      rw [if_pos hm, hurl, henc]
    · intro hm
      rw [hd]
      unfold buildRequest
      rw [if_neg hm, hurl, henc]
      simp [urlString]

/-- C7 amended witness: the syntactically invalid blob "oops" of `cfgOops`
fails to decode; the dispatch still proceeds, nothing but a 200 can
terminate the job, and the mapping is empty with a parameterless request. -/
theorem payload_decode_failure_never_aborts_witness :
    buildOk cfgOops = true ∧
    (∀ st id resp, (callAPI st id cfgOops resp).2 = true →
      ∃ body, resp = HTTPResult.ok 200 body) ∧
    (parseJSONTop cfgOops.Payload = none →
      decodePayload cfgOops.Payload = [] ∧
      (toUpperAscii cfgOops.HTTPMethod = "POST" →
        buildRequest cfgOops (decodePayload cfgOops.Payload)
          = Except.ok { method := "POST", url := cfgOops.APIURL, body := some "",
                        contentType := some "application/x-www-form-urlencoded" }) ∧
      (toUpperAscii cfgOops.HTTPMethod ≠ "POST" →
        buildRequest cfgOops (decodePayload cfgOops.Payload)
          = Except.ok { method := "GET", url := uFake.base, body := none,
                        contentType := none })) :=
  payload_decode_failure_never_aborts cfgOops uFake (by rfl) (by rfl)

/-- C8: Any dispatch whose method token does not uppercase to "POST" is
issued as a GET with no body and no content type, with the decoded payload
mapping encoded (keys sorted, query-escaped) into the URL's query; when the
target URL has no query of its own and the encoding is nonempty, the result
is literally the target URL followed by `?` and the encoded parameters. -/
theorem nonpost_dispatch_is_get_with_query (cfg : SchedulerConfig) (u : URL)
    (hm : toUpperAscii cfg.HTTPMethod ≠ "POST")
    (hurl : urlParse cfg.APIURL = some u) :
    buildRequest cfg (decodePayload cfg.Payload)
      = Except.ok { method := "GET",
                    url := urlString { base := u.base,
                                       rawQuery :=
                                         encodeValues (decodePayload cfg.Payload) },
                    body := none, contentType := none } ∧
    ((∀ ch ∈ cfg.APIURL.data, ch ≠ '?') →
      encodeValues (decodePayload cfg.Payload) ≠ "" →
      urlString { base := u.base, rawQuery := encodeValues (decodePayload cfg.Payload) }
        = cfg.APIURL ++ "?" ++ encodeValues (decodePayload cfg.Payload)) := by
  constructor
  · unfold buildRequest
    rw [if_neg hm, hurl]
  · intro hq hne
    have hu : u.base = cfg.APIURL := by
      unfold urlParse at hurl
      split at hurl
      · exact absurd hurl (by simp)
      · injection hurl with h2
        rw [← h2]
        show String.mk (splitQ cfg.APIURL.data).1 = cfg.APIURL
        rw [splitQ_eq_of_no_mark hq]
    rw [hu]
    unfold urlString
    rw [if_neg hne]

/-- C8 witness: method "Delete" with payload mapping k to v against a
query-free URL: the request is a GET with no body whose URL is the target
followed by "?k=v". -/
theorem nonpost_dispatch_is_get_with_query_witness :
    (buildRequest cfgDelete (decodePayload cfgDelete.Payload)
      = Except.ok { method := "GET",
                    url := urlString { base := uFake.base,
                                       rawQuery :=
                                         encodeValues (decodePayload cfgDelete.Payload) },
                    body := none, contentType := none }) ∧
    ((∀ ch ∈ cfgDelete.APIURL.data, ch ≠ '?') →
      encodeValues (decodePayload cfgDelete.Payload) ≠ "" →
      urlString { base := uFake.base,
                  rawQuery := encodeValues (decodePayload cfgDelete.Payload) }
        = cfgDelete.APIURL ++ "?" ++ encodeValues (decodePayload cfgDelete.Payload)) :=
  nonpost_dispatch_is_get_with_query cfgDelete uFake (by decide) (by rfl)

/-! ## Ticker-panic lemmas -/

lemma int64wrap_eq_self {n : Int} (h0 : 0 ≤ n) (h1 : n < 2 ^ 63) : int64wrap n = n := by
  have e1 : (2 : Int) ^ 63 = 9223372036854775808 := by norm_num
  have e2 : (2 : Int) ^ 64 = 18446744073709551616 := by norm_num
  rw [e1] at h1
  unfold int64wrap
  rw [e1, e2, Int.emod_eq_of_lt (by omega) (by omega)]
  omega

lemma run_eq_runLoop {st : SysState} {id : String} {cfg : SchedulerConfig}
    {d0 now : Int} {events : List TickEvent} {c : Nat × Nat × Nat} {d : Int}
    (hpc : parseClock cfg.StartTime = some c)
    (hru : repeatIntervalNs cfg = some d)
    (hd : newTickerPanics d = false) :
    run st id cfg d0 now false events
      = runLoop id cfg (logS (logS (logS (logS st (startReqMsg id)) (configMsg id cfg))
          (waitingMsg id)) (runningMsg id)) events 0 := by
  simp only [run, hpc, hru, hd]
  simp

lemma repeatIntervalNs_pos {cfg : SchedulerConfig} {d : Int}
    (hru : repeatIntervalNs cfg = some d)
    (hpos : 0 < cfg.RepeatValue)
    (hbound : cfg.RepeatValue * 3600000000000 < 2 ^ 63) :
    0 < d := by
  have hb1 : cfg.RepeatValue * 60000000000 ≤ cfg.RepeatValue * 3600000000000 :=
    mul_le_mul_of_nonneg_left (by norm_num) (le_of_lt hpos)
  have hb2 : cfg.RepeatValue * 1000000000 ≤ cfg.RepeatValue * 3600000000000 :=
    mul_le_mul_of_nonneg_left (by norm_num) (le_of_lt hpos)
  unfold repeatIntervalNs at hru
  split at hru
  · injection hru with hru
    rw [← hru,
      int64wrap_eq_self (le_of_lt (mul_pos hpos (by norm_num))) hbound]
    exact mul_pos hpos (by norm_num)
  · injection hru with hru
    rw [← hru,
      int64wrap_eq_self (le_of_lt (mul_pos hpos (by norm_num))) (lt_of_le_of_lt hb1 hbound)]
    exact mul_pos hpos (by norm_num)
  · injection hru with hru
    rw [← hru,
      int64wrap_eq_self (le_of_lt (mul_pos hpos (by norm_num))) (lt_of_le_of_lt hb2 hbound)]
    exact mul_pos hpos (by norm_num)
  · exact absurd hru (by simp)

/-- C9 counterexample: the claim "the running phase never panics for every
configuration" is false on the code.  With `repeatValue = 0` and the
recognized unit "s" (config `cfgZero`), a parseable start time and no stop
signal, the run phase reaches `time.NewTicker` with a zero interval, which
panics ("non-positive interval for NewTicker"). -/
theorem run_panics_on_zero_repeatValue :
    (run { schedulers := [], logs := [] } "job1" cfgZero 0 0 false []).2.2
      = RunExit.tickerPanic := by
  decide

/-- C9 (amended): provided `repeatValue` is positive (the spec's stated
invariant) and small enough that the 64-bit nanosecond interval computation
cannot overflow, the run phase never reaches the ticker panic: every error
branch only logs and returns. -/
theorem run_no_ticker_panic_of_valid_repeatValue (st : SysState) (id : String)
    (cfg : SchedulerConfig) (d0 now : Int) (sd : Bool) (events : List TickEvent)
    (hpos : 0 < cfg.RepeatValue)
    (hbound : cfg.RepeatValue * 3600000000000 < 2 ^ 63) :
    (run st id cfg d0 now sd events).2.2 ≠ RunExit.tickerPanic := by
  cases hpc : parseClock cfg.StartTime with
  | none =>
    rw [run_eq_parseError hpc]
    simp
  | some c =>
    cases sd with
    | true =>
      rw [run_eq_stoppedBeforeStart hpc]
      simp
    | false =>
      cases hru : repeatIntervalNs cfg with
      | none =>
        rw [run_eq_invalidUnit hpc hru]
        simp
      | some d =>
        have hd : newTickerPanics d = false := by
          have hd0 : 0 < d := repeatIntervalNs_pos hru hpos hbound
          unfold newTickerPanics
          exact decide_eq_false (by omega)
        rw [run_eq_runLoop hpc hru hd]
        exact runLoop_exit_ne_panic id cfg events _ _

/-- C9 amended witness: with `cfgA` (`repeatValue = 1`, unit "s") the
concrete run does not exit through the ticker panic. -/
theorem run_no_ticker_panic_of_valid_repeatValue_witness :
    (run stA "job1" cfgA 0 0 false [TickEvent.tick (HTTPResult.ok 500 "")]).2.2
      ≠ RunExit.tickerPanic :=
  run_no_ticker_panic_of_valid_repeatValue stA "job1" cfgA 0 0 false
    [TickEvent.tick (HTTPResult.ok 500 "")] (by decide) (by decide)
